import Mathlib

/-!
# Verification of the DataGems real-time anomaly-detection service

Shallow embedding of `src/anamoly_detection/api_server.py`.

The Python service stores measurements as IEEE-754 doubles; the embedding
models them as exact rationals (`ℚ`).  The only irrational quantity is the
standard deviation `np.std(values)` (the square root of the population
variance); every comparison the code makes against it
(`std < 1e-6`, `std > 0`, `abs(z) > threshold`) is encoded by the exactly
equivalent rational comparison on the variance (squaring both sides), and the
reported Z-score itself is kept in `ℝ` via `Real.sqrt`.  Timestamps are kept
as raw integers; the code formats them with `strftime` (a strictly monotone,
injective rendering for the integer instants involved), which is presentation
only and not modelled.  Python's `round` rounds half-to-even; `round` here
rounds half-up — the two agree except on exact half-way ties, which play no
role in any statement below.
-/

/-- One weather observation (Pydantic model `Observation` in the source):
a station id, a Unix timestamp, and five numeric measurements. -/
structure Observation where
  station_id : String
  timestamp : Int
  temp_out : ℚ
  out_hum : ℚ
  wind_speed : ℚ
  bar : ℚ
  rain : ℚ
deriving DecidableEq, Repr

/-- The five tracked variables.  The source addresses them as attribute-name
strings `['temp_out', 'out_hum', 'wind_speed', 'bar', 'rain']`; the embedding
uses an enumeration together with `varStr` and `getVar` below. -/
inductive WeatherVar where
  | temp_out
  | out_hum
  | wind_speed
  | bar
  | rain
deriving DecidableEq, Repr

/-- The attribute-name string of a tracked variable. -/
def varStr : WeatherVar → String
  | .temp_out => "temp_out"
  | .out_hum => "out_hum"
  | .wind_speed => "wind_speed"
  | .bar => "bar"
  | .rain => "rain"

/-- `getattr(obs, var)` for the five tracked variables. -/
def getVar (o : Observation) : WeatherVar → ℚ
  | .temp_out => o.temp_out
  | .out_hum => o.out_hum
  | .wind_speed => o.wind_speed
  | .bar => o.bar
  | .rain => o.rain

/-- The list `variables = ['temp_out', 'out_hum', 'wind_speed', 'bar', 'rain']`
of the source, in its fixed order (`variables` is a reserved word in Lean). -/
def variablesList : List WeatherVar :=
  [.temp_out, .out_hum, .wind_speed, .bar, .rain]

/-- One reported anomaly (Pydantic model `AnomalyResult` in the source).
`time_start`, `time_end` and `anomaly_timestamp` hold the raw integer
timestamps that the source renders with `strftime`; `var_name` is the
source's `variable` field (a reserved word in Lean). -/
structure AnomalyResult where
  time_start : Int
  time_end : Int
  station_id : String
  var_name : String
  anomaly_timestamp : Int
  anomaly_value : ℚ
  z_score : ℝ

/-- `np.mean(values)`: the arithmetic mean (`0` on the empty list, which the
detector never queries). -/
def npMean (l : List ℚ) : ℚ := l.sum / l.length

/-- The population variance, i.e. `np.std(values) ** 2` (divisor = count):
mean of the squared deviations from the mean. -/
def npVariance (l : List ℚ) : ℚ :=
  (l.map (fun x => (x - npMean l) ^ 2)).sum / l.length

/-- `(1e-6)²`: the source's near-zero guard `np.std(values) < 1e-6` is the
exact rational comparison `npVariance values < epsSq`. -/
def epsSq : ℚ := 1 / 10 ^ 12

/-- The source's anomaly test `abs((x - mean) / std) > threshold`, encoded
exactly over `ℚ`: for `std = √v > 0` it holds iff `threshold < 0` or
`threshold² · v < (x - mean)²`. -/
def isAnomalous (threshold m v x : ℚ) : Bool :=
  decide (threshold < 0) || decide (threshold ^ 2 * v < (x - m) ^ 2)

/-- The Z-score `(x - mean) / std` with `std = √v`, as a real number. -/
noncomputable def zScore (x m v : ℚ) : ℝ :=
  ((x : ℝ) - (m : ℝ)) / Real.sqrt (v : ℝ)

/-- Python's `round(x, 2)` on a rational value. -/
def round2q (x : ℚ) : ℚ := (round (x * 100) : ℤ) / 100

/-- Python's `round(x, 2)` on a real value. -/
noncomputable def round2r (x : ℝ) : ℝ := ((round (x * 100) : ℤ) : ℝ) / 100

/-- Timestamp comparison used to sort each station's batch:
`obs_list.sort(key=lambda x: x.timestamp)`. -/
def obsLE (a b : Observation) : Prop := a.timestamp ≤ b.timestamp

instance : DecidableRel obsLE := fun a b => Int.decLe a.timestamp b.timestamp

instance : IsTotal Observation obsLE :=
  ⟨fun a b => Int.le_total a.timestamp b.timestamp⟩

instance : IsTrans Observation obsLE :=
  ⟨fun _ _ _ h₁ h₂ => le_trans h₁ h₂⟩

/-- The stable timestamp-ascending sort applied to each station's batch
(Python's `list.sort` is stable; insertion sort with `≤` on timestamps is the
standard stable model). -/
def sortObs (l : List Observation) : List Observation :=
  List.insertionSort obsLE l

/-- Python's `min` over a nonempty list of integers (`0` on `[]`, which the
detector never queries). -/
def listMinI : List Int → Int
  | [] => 0
  | x :: xs => xs.foldl min x

/-- Python's `max` over a nonempty list of integers (`0` on `[]`, which the
detector never queries). -/
def listMaxI : List Int → Int
  | [] => 0
  | x :: xs => xs.foldl max x

/-- The body of the source's `for var in variables:` loop for one station
group: skip the variable when `np.std(values) < 1e-6`; otherwise (and when
`std > 0`) emit one record per observation with `abs(z_score) > threshold`,
in the sorted order of the group. -/
noncomputable def detectVar (threshold : ℚ) (tStart tEnd : Int) (sid : String)
    (sorted : List Observation) (v : WeatherVar) : List AnomalyResult :=
  let values := sorted.map (fun o => getVar o v)
  if npVariance values < epsSq then []
  else
    let m := npMean values
    let sd2 := npVariance values
    if 0 < sd2 then
      (sorted.filter (fun o => isAnomalous threshold m sd2 (getVar o v))).map
        (fun o =>
          { time_start := tStart
            time_end := tEnd
            station_id := sid
            var_name := varStr v
            anomaly_timestamp := o.timestamp
            anomaly_value := round2q (getVar o v)
            z_score := round2r (zScore (getVar o v) m sd2) })
    else []

/-- The body of the source's `for station_id, obs_list in station_data.items():`
loop: sort the group by timestamp, skip it when it has fewer than 3 members,
compute the group's time window, then scan the five variables in order. -/
noncomputable def detectStation (threshold : ℚ) (sid : String)
    (grp : List Observation) : List AnomalyResult :=
  let sorted := sortObs grp
  if sorted.length < 3 then []
  else
    let ts := sorted.map (fun o => o.timestamp)
    variablesList.flatMap (detectVar threshold (listMinI ts) (listMaxI ts) sid sorted)

/-- One step of building `station_data`: append `o` to its station's group if
the station is already a key, else add the station as a new (last) key —
exactly the effect of `station_data[obs.station_id].append(obs)` on a
`defaultdict(list)` whose keys iterate in insertion order. -/
def insertObs (groups : List (String × List Observation)) (o : Observation) :
    List (String × List Observation) :=
  match groups with
  | [] => [(o.station_id, [o])]
  | (s, l) :: rest =>
    if s = o.station_id then (s, l ++ [o]) :: rest
    else (s, l) :: insertObs rest o

/-- `station_data`: the source's grouping loop
`for obs in observations: station_data[obs.station_id].append(obs)`,
as an association list whose keys appear in first-seen order. -/
def groupByStation (observations : List Observation) :
    List (String × List Observation) :=
  observations.foldl insertObs []

/-- `detect_temporal_anomalies(observations, threshold)`: group by station and
concatenate every group's records in the source's iteration order. -/
noncomputable def detect_temporal_anomalies (observations : List Observation)
    (threshold : ℚ) : List AnomalyResult :=
  (groupByStation observations).flatMap (fun p => detectStation threshold p.1 p.2)

/-- The station ids of a batch in first-seen order: the key order of
`station_data` (`defaultdict` keys iterate in insertion order). -/
def firstSeen : List String → List String
  | [] => []
  | s :: rest => s :: (firstSeen rest).filter (fun x => x ≠ s)

/-- The station ids of a batch in first-seen order. -/
def stationOrder (observations : List Observation) : List String :=
  firstSeen (observations.map (fun o => o.station_id))

/-- The output order described by the spec: station groups in first-seen
order, each group being that station's observations in arrival order, scored
by `detectStation` (which sorts by timestamp and scans the variables in their
fixed order).  The theorem for the ordering claim proves this equal to
`detect_temporal_anomalies`. -/
noncomputable def detectSpecOrdered (observations : List Observation)
    (threshold : ℚ) : List AnomalyResult :=
  (stationOrder observations).flatMap (fun s =>
    detectStation threshold s (observations.filter (fun o => o.station_id = s)))

/-- The request body of `POST /detect` (Pydantic model `DetectionRequest`):
the observation list and the three numeric parameters with their documented
defaults (60, 18, 2.5). -/
structure DetectionRequest where
  observations : List Observation
  window_len : Int := 60
  stride : Int := 18
  threshold : ℚ := 5 / 2

/-- The successful response of `POST /detect` (`DetectionResponse` in the
source).  The wall-clock `detection_time` field and the human-readable
`message` text are presentation only and are not modelled; the echoed
`parameters` dict is flattened into the three `param_*` fields. -/
structure DetectionResponse where
  status : String
  total_observations : Nat
  total_anomalies : Nat
  param_window_len : Int
  param_stride : Int
  param_threshold : ℚ
  anomalies : List AnomalyResult

/-- What the endpoint hands back to FastAPI: either a raised `HTTPException`
with a status code and detail string, or a `DetectionResponse`. -/
inductive EndpointResult where
  | httpError (statusCode : Nat) (detail : String)
  | ok (resp : DetectionResponse)

/-- The detail string of the undersized-payload 400 error. -/
def insufficientMsg (n : Nat) : String :=
  "Insufficient data: " ++ toString n ++
    " observations provided. Minimum 3 required for statistical analysis."

/-- The `detect_anomalies` endpoint with the guarded call to the detector
abstracted as `run`: the source wraps the detection and response construction
in `try: ... except Exception as e: raise HTTPException(500, ...)`, so a run
that raises (modelled as `Except.error`) is mapped to a 500 error.  The two
validation checks precede the `try` block. -/
def detect_anomalies_with
    (run : List Observation → ℚ → Except String (List AnomalyResult))
    (req : DetectionRequest) : EndpointResult :=
  if req.observations = [] then .httpError 400 "No observations provided"
  else if req.observations.length < 3 then
    .httpError 400 (insufficientMsg req.observations.length)
  else
    match run req.observations req.threshold with
    | .error e => .httpError 500 ("Detection failed: " ++ e)
    | .ok anomalies =>
      .ok { status := if 0 < anomalies.length then "anomalies_found" else "no_anomalies"
            total_observations := req.observations.length
            total_anomalies := anomalies.length
            param_window_len := req.window_len
            param_stride := req.stride
            param_threshold := req.threshold
            anomalies := anomalies }

/-- The actual detector as the endpoint's `run`: `detect_temporal_anomalies`
never raises in the model (its Python counterpart's failure mode is covered
by quantifying over `run` in `detect_anomalies_with`). -/
noncomputable def runDetector (observations : List Observation) (threshold : ℚ) :
    Except String (List AnomalyResult) :=
  .ok (detect_temporal_anomalies observations threshold)

/-- The `POST /detect` endpoint `detect_anomalies(request)`. -/
noncomputable def detect_anomalies (req : DetectionRequest) : EndpointResult :=
  detect_anomalies_with runDetector req

/-- The anomaly list carried by an endpoint outcome (`none` for an HTTP
error outcome). -/
def anomaliesOf : EndpointResult → Option (List AnomalyResult)
  | .httpError _ _ => none
  | .ok resp => some resp.anomalies

/-- A default record, used only to select elements of concrete outputs. -/
def dummyRec : AnomalyResult :=
  { time_start := 0
    time_end := 0
    station_id := ""
    var_name := ""
    anomaly_timestamp := 0
    anomaly_value := 0
    z_score := 0 }

/-- An observation of station `"A"` with the given timestamp and outdoor
temperature (the remaining measurements are 0). -/
def obsA (k : Int) (q : ℚ) : Observation :=
  { station_id := "A", timestamp := k, temp_out := q, out_hum := 0,
    wind_speed := 0, bar := 0, rain := 0 }

/-- An observation of station `"B"` with the given timestamp and outdoor
temperature (the remaining measurements are 0). -/
def obsB (k : Int) (q : ℚ) : Observation :=
  { station_id := "B", timestamp := k, temp_out := q, out_hum := 0,
    wind_speed := 0, bar := 0, rain := 0 }

/-- Concrete batch: station `"A"`, temperatures alternating 1, −1 (mean 0,
population variance 1). -/
def sampleA : List Observation :=
  [obsA 1 1, obsA 2 (-1), obsA 3 1, obsA 4 (-1)]

/-- `sampleA` with its first two observations exchanged. -/
def sampleASwapped : List Observation :=
  [obsA 2 (-1), obsA 1 1, obsA 3 1, obsA 4 (-1)]

/-- Concrete batch: station `"B"` with only two observations. -/
def sampleB : List Observation := [obsB 1 1, obsB 2 2]

/-- Concrete batch: station `"A"` with temperatures 0, 0, 9 (mean 3,
population variance 18). -/
def sampleC : List Observation := [obsA 1 0, obsA 2 0, obsA 3 9]

/-! ## Structure of the station grouping -/

theorem mem_firstSeen {x : String} : ∀ {ks : List String}, x ∈ firstSeen ks ↔ x ∈ ks := by
  intro ks
  induction ks with
  | nil => simp [firstSeen]
  | cons s rest ih =>
    simp only [firstSeen, List.mem_cons, List.mem_filter, decide_eq_true_eq]
    constructor
    · rintro (rfl | ⟨h, _⟩)
      · exact .inl rfl
      · exact .inr (ih.mp h)
    · rintro (rfl | h)
      · exact .inl rfl
      · by_cases hx : x = s
        · exact .inl hx
        · exact .inr ⟨ih.mpr h, hx⟩

theorem firstSeen_nodup : ∀ ks : List String, (firstSeen ks).Nodup := by
  intro ks
  induction ks with
  | nil => simp [firstSeen]
  | cons s rest ih =>
    refine List.nodup_cons.mpr ⟨?_, ih.filter _⟩
    intro hmem
    have := (List.mem_filter.mp hmem).2
    simp at this

theorem firstSeen_append_singleton (ks : List String) (k : String) :
    firstSeen (ks ++ [k]) =
      if k ∈ ks then firstSeen ks else firstSeen ks ++ [k] := by
  induction ks with
  | nil => simp [firstSeen]
  | cons s rest ih =>
    by_cases hk : k ∈ rest
    · have hmem : k ∈ s :: rest := List.mem_cons_of_mem _ hk
      rw [List.cons_append, firstSeen, ih, if_pos hk, if_pos hmem, firstSeen]
    · by_cases hks : k = s
      · subst hks
        have hmem : k ∈ k :: rest := List.mem_cons_self _ _
        rw [List.cons_append, firstSeen, ih, if_neg hk, if_pos hmem,
          List.filter_append, firstSeen]
        simp
      · have hmem : k ∉ s :: rest := by simp [hks, hk]
        rw [List.cons_append, firstSeen, ih, if_neg hk, if_neg hmem,
          List.filter_append, firstSeen]
        simp [hks]

theorem insertObs_map (keys : List String) (F : String → List Observation)
    (o : Observation) (hnd : keys.Nodup) :
    insertObs (keys.map (fun s => (s, F s))) o =
      if o.station_id ∈ keys then
        keys.map (fun s => (s, if s = o.station_id then F s ++ [o] else F s))
      else keys.map (fun s => (s, F s)) ++ [(o.station_id, [o])] := by
  induction keys with
  | nil => simp [insertObs]
  | cons s rest ih =>
    have hnd' : rest.Nodup := (List.nodup_cons.mp hnd).2
    have hs_not : s ∉ rest := (List.nodup_cons.mp hnd).1
    by_cases hs : s = o.station_id
    · subst hs
      have hmem : o.station_id ∈ o.station_id :: rest := List.mem_cons_self _ _
      rw [List.map_cons, insertObs, if_pos rfl, if_pos hmem, List.map_cons,
        if_pos rfl]
      congr 1
      refine (List.map_congr_left ?_)
      intro a ha
      have hne : ¬ (a = o.station_id) := fun h => hs_not (h ▸ ha)
      simp [hne]
    · rw [List.map_cons, insertObs, if_neg hs, ih hnd']
      by_cases ho : o.station_id ∈ rest
      · have hmem : o.station_id ∈ s :: rest := List.mem_cons_of_mem _ ho
        rw [if_pos ho, if_pos hmem, List.map_cons, if_neg hs]
      · have hmem : o.station_id ∉ s :: rest := by
          simp only [List.mem_cons, not_or]
          exact ⟨fun h => hs h.symm, ho⟩
        rw [if_neg ho, if_neg hmem]
        simp

theorem stationOrder_nodup (observations : List Observation) :
    (stationOrder observations).Nodup :=
  firstSeen_nodup _

theorem mem_stationOrder {s : String} {observations : List Observation} :
    s ∈ stationOrder observations ↔ ∃ o ∈ observations, o.station_id = s := by
  simp [stationOrder, mem_firstSeen, List.mem_map, eq_comm]

theorem groupByStation_eq (observations : List Observation) :
    groupByStation observations =
      (stationOrder observations).map
        (fun s => (s, observations.filter (fun o => o.station_id = s))) := by
  induction observations using List.reverseRecOn with
  | nil => simp [groupByStation, stationOrder, firstSeen]
  | append_singleton l o ih =>
    have hfold : groupByStation (l ++ [o]) = insertObs (groupByStation l) o := by
      simp [groupByStation, List.foldl_append, insertObs]
    have horder : stationOrder (l ++ [o]) =
        if o.station_id ∈ l.map (fun o => o.station_id) then stationOrder l
        else stationOrder l ++ [o.station_id] := by
      simp only [stationOrder, List.map_append, List.map_cons, List.map_nil]
      exact firstSeen_append_singleton _ _
    rw [hfold, ih, insertObs_map _ _ _ (stationOrder_nodup l)]
    by_cases ho : o.station_id ∈ l.map (fun o => o.station_id)
    · have ho' : o.station_id ∈ stationOrder l := by
        simpa [stationOrder, mem_firstSeen] using ho
      rw [if_pos ho', horder, if_pos ho]
      refine List.map_congr_left ?_
      intro s _
      by_cases hso : s = o.station_id
      · subst hso
        simp [List.filter_append]
      · have : ¬ (o.station_id = s) := fun h => hso h.symm
        simp [List.filter_append, hso, this]
    · have ho' : o.station_id ∉ stationOrder l := by
        simpa [stationOrder, mem_firstSeen] using ho
      rw [if_neg ho', horder, if_neg ho, List.map_append]
      congr 1
      · refine List.map_congr_left ?_
        intro s hs
        have hso : ¬ (o.station_id = s) := by
          rintro rfl
          exact ho' hs
        simp [List.filter_append, hso]
      · have hnil : l.filter (fun x => x.station_id = o.station_id) = [] := by
          refine List.filter_eq_nil_iff.mpr ?_
          intro a ha hmem
          simp only [decide_eq_true_eq] at hmem
          exact ho (List.mem_map.mpr ⟨a, ha, hmem⟩)
        simp [List.filter_append, hnil]

theorem mem_groupByStation {s : String} {g : List Observation}
    {observations : List Observation}
    (h : (s, g) ∈ groupByStation observations) :
    s ∈ stationOrder observations ∧
      g = observations.filter (fun o => o.station_id = s) := by
  rw [groupByStation_eq] at h
  rcases List.mem_map.mp h with ⟨s', hs', heq⟩
  obtain ⟨rfl, rfl⟩ : s' = s ∧ observations.filter (fun o => o.station_id = s') = g := by
    constructor
    · exact congrArg Prod.fst heq
    · exact congrArg Prod.snd heq
  exact ⟨hs', rfl⟩

theorem detect_eq_spec (observations : List Observation) (threshold : ℚ) :
    detect_temporal_anomalies observations threshold =
      detectSpecOrdered observations threshold := by
  rw [detect_temporal_anomalies, groupByStation_eq, detectSpecOrdered,
    List.flatMap_map]

/-! ## Minimum, maximum, sorting and the statistics -/

theorem foldl_min_le_init (xs : List Int) (a : Int) : xs.foldl min a ≤ a := by
  induction xs generalizing a with
  | nil => exact le_rfl
  | cons x xs ih =>
    exact le_trans (ih (min a x)) (min_le_left a x)

theorem foldl_min_le_of_mem {xs : List Int} {b : Int} (h : b ∈ xs) (a : Int) :
    xs.foldl min a ≤ b := by
  induction xs generalizing a with
  | nil => cases h
  | cons x xs ih =>
    rcases List.mem_cons.mp h with rfl | hb
    · exact le_trans (foldl_min_le_init xs (min a b)) (min_le_right a b)
    · exact ih hb (min a x)

theorem foldl_min_mem (xs : List Int) (a : Int) : xs.foldl min a ∈ a :: xs := by
  induction xs generalizing a with
  | nil => exact List.mem_cons_self _ _
  | cons x xs ih =>
    rcases List.mem_cons.mp (ih (min a x)) with h | h
    · rw [List.foldl_cons, h]
      rcases min_choice a x with hm | hm
      · rw [hm]; exact List.mem_cons_self _ _
      · rw [hm]; exact List.mem_cons_of_mem _ (List.mem_cons_self _ _)
    · exact List.mem_cons_of_mem _ (List.mem_cons_of_mem _ h)

theorem listMinI_le_of_mem {l : List Int} {b : Int} (h : b ∈ l) :
    listMinI l ≤ b := by
  cases l with
  | nil => cases h
  | cons x xs =>
    rcases List.mem_cons.mp h with rfl | hb
    · exact foldl_min_le_init xs b
    · exact foldl_min_le_of_mem hb x

theorem listMinI_mem {l : List Int} (h : l ≠ []) : listMinI l ∈ l := by
  cases l with
  | nil => exact absurd rfl h
  | cons x xs => exact foldl_min_mem xs x

theorem foldl_max_le_init (xs : List Int) (a : Int) : a ≤ xs.foldl max a := by
  induction xs generalizing a with
  | nil => exact le_rfl
  | cons x xs ih =>
    exact le_trans (le_max_left a x) (ih (max a x))

theorem foldl_max_le_of_mem {xs : List Int} {b : Int} (h : b ∈ xs) (a : Int) :
    b ≤ xs.foldl max a := by
  induction xs generalizing a with
  | nil => cases h
  | cons x xs ih =>
    rcases List.mem_cons.mp h with rfl | hb
    · exact le_trans (le_max_right a b) (foldl_max_le_init xs (max a b))
    · exact ih hb (max a x)

theorem foldl_max_mem (xs : List Int) (a : Int) : xs.foldl max a ∈ a :: xs := by
  induction xs generalizing a with
  | nil => exact List.mem_cons_self _ _
  | cons x xs ih =>
    rcases List.mem_cons.mp (ih (max a x)) with h | h
    · rw [List.foldl_cons, h]
      rcases max_choice a x with hm | hm
      · rw [hm]; exact List.mem_cons_self _ _
      · rw [hm]; exact List.mem_cons_of_mem _ (List.mem_cons_self _ _)
    · exact List.mem_cons_of_mem _ (List.mem_cons_of_mem _ h)

theorem le_listMaxI_of_mem {l : List Int} {b : Int} (h : b ∈ l) :
    b ≤ listMaxI l := by
  cases l with
  | nil => cases h
  | cons x xs =>
    rcases List.mem_cons.mp h with rfl | hb
    · exact foldl_max_le_init xs b
    · exact foldl_max_le_of_mem hb x

theorem listMaxI_mem {l : List Int} (h : l ≠ []) : listMaxI l ∈ l := by
  cases l with
  | nil => exact absurd rfl h
  | cons x xs => exact foldl_max_mem xs x

theorem listMinI_perm {l₁ l₂ : List Int} (h : l₁.Perm l₂) :
    listMinI l₁ = listMinI l₂ := by
  by_cases hn : l₁ = []
  · subst hn
    rw [h.symm.eq_nil]
  · have hn₂ : l₂ ≠ [] := by
      intro h2
      subst h2
      exact hn h.eq_nil
    exact le_antisymm
      (listMinI_le_of_mem (h.mem_iff.mpr (listMinI_mem hn₂)))
      (listMinI_le_of_mem (h.mem_iff.mp (listMinI_mem hn)))

theorem listMaxI_perm {l₁ l₂ : List Int} (h : l₁.Perm l₂) :
    listMaxI l₁ = listMaxI l₂ := by
  by_cases hn : l₁ = []
  · subst hn
    rw [h.symm.eq_nil]
  · have hn₂ : l₂ ≠ [] := by
      intro h2
      subst h2
      exact hn h.eq_nil
    exact le_antisymm
      (le_listMaxI_of_mem (h.mem_iff.mp (listMaxI_mem hn)))
      (le_listMaxI_of_mem (h.mem_iff.mpr (listMaxI_mem hn₂)))

theorem sortObs_perm (l : List Observation) : (sortObs l).Perm l :=
  List.perm_insertionSort obsLE l

theorem sortObs_length (l : List Observation) : (sortObs l).length = l.length :=
  (sortObs_perm l).length_eq

theorem sortObs_sorted (l : List Observation) : List.Sorted obsLE (sortObs l) :=
  List.sorted_insertionSort obsLE l

theorem filter_timestamp_orderedInsert (o : Observation) (l : List Observation)
    (c : Int) :
    (List.orderedInsert obsLE o l).filter (fun x => x.timestamp = c) =
      if o.timestamp = c then
        o :: l.filter (fun x => x.timestamp = c)
      else l.filter (fun x => x.timestamp = c) := by
  induction l with
  | nil => by_cases hc : o.timestamp = c <;> simp [List.orderedInsert, hc]
  | cons b l ih =>
    by_cases hob : obsLE o b
    · by_cases hc : o.timestamp = c <;>
        simp [List.orderedInsert, if_pos hob, List.filter_cons, hc]
    · have hlt : b.timestamp < o.timestamp := by
        simpa [obsLE, not_le] using hob
      by_cases hc : o.timestamp = c
      · have hbc : ¬ (b.timestamp = c) := by
          intro hb
          rw [hb, hc] at hlt
          exact lt_irrefl c hlt
        simp [List.orderedInsert, if_neg hob, List.filter_cons, hbc, ih, hc]
      · by_cases hbc : b.timestamp = c <;>
          simp [List.orderedInsert, if_neg hob, List.filter_cons, hbc, ih, hc]

theorem sortObs_filter_timestamp (l : List Observation) (c : Int) :
    (sortObs l).filter (fun x => x.timestamp = c) =
      l.filter (fun x => x.timestamp = c) := by
  induction l with
  | nil => rfl
  | cons o l ih =>
    show (List.orderedInsert obsLE o (sortObs l)).filter _ = _
    rw [filter_timestamp_orderedInsert, List.filter_cons]
    by_cases hc : o.timestamp = c <;> simp [hc, ih]

theorem npMean_perm {l₁ l₂ : List ℚ} (h : l₁.Perm l₂) : npMean l₁ = npMean l₂ := by
  unfold npMean
  rw [h.sum_eq, h.length_eq]

theorem npVariance_perm {l₁ l₂ : List ℚ} (h : l₁.Perm l₂) :
    npVariance l₁ = npVariance l₂ := by
  unfold npVariance
  rw [npMean_perm h, (h.map _).sum_eq, h.length_eq]

/-! ## Shape of the emitted records -/

theorem varStr_inj {v₁ v₂ : WeatherVar} (h : varStr v₁ = varStr v₂) : v₁ = v₂ := by
  cases v₁ <;> cases v₂ <;> first
    | rfl
    | (exfalso; simp [varStr] at h)

theorem variablesList_nodup : variablesList.Nodup := by
  simp [variablesList]

theorem mem_variablesList (v : WeatherVar) : v ∈ variablesList := by
  cases v <;> simp [variablesList]

theorem mem_detectVar {r : AnomalyResult} {t : ℚ} {a b : Int} {sid : String}
    {sorted : List Observation} {v : WeatherVar}
    (h : r ∈ detectVar t a b sid sorted v) :
    r.time_start = a ∧ r.time_end = b ∧ r.station_id = sid ∧
      r.var_name = varStr v ∧ ∃ o ∈ sorted, r.anomaly_timestamp = o.timestamp := by
  simp only [detectVar] at h
  split at h
  · cases h
  · split at h
    · rcases List.mem_map.mp h with ⟨o, ho, rfl⟩
      exact ⟨rfl, rfl, rfl, rfl, o, List.mem_of_mem_filter ho, rfl⟩
    · cases h

theorem detectStation_small {t : ℚ} {sid : String} {grp : List Observation}
    (h : grp.length < 3) : detectStation t sid grp = [] := by
  simp only [detectStation]
  rw [if_pos]
  rwa [sortObs_length]

theorem mem_detectStation {r : AnomalyResult} {t : ℚ} {sid : String}
    {grp : List Observation} (h : r ∈ detectStation t sid grp) :
    r.station_id = sid ∧
      r.time_start = listMinI ((sortObs grp).map (fun o => o.timestamp)) ∧
      r.time_end = listMaxI ((sortObs grp).map (fun o => o.timestamp)) ∧
      ∃ o ∈ sortObs grp, r.anomaly_timestamp = o.timestamp := by
  simp only [detectStation] at h
  split at h
  · cases h
  · rcases List.mem_flatMap.mp h with ⟨v, _, hr⟩
    rcases mem_detectVar hr with ⟨h1, h2, h3, _, o, ho, h5⟩
    exact ⟨h3, h1, h2, o, ho, h5⟩

theorem detectVar_skip {t : ℚ} {a b : Int} {sid : String}
    {sorted : List Observation} {v : WeatherVar}
    (h : npVariance (sorted.map (fun o => getVar o v)) < epsSq) :
    detectVar t a b sid sorted v = [] := by
  simp only [detectVar]
  rw [if_pos h]

theorem epsSq_pos : 0 < epsSq := by norm_num [epsSq]

theorem variance_pos_of_not_small {values : List ℚ}
    (h : ¬ npVariance values < epsSq) : 0 < npVariance values :=
  lt_of_lt_of_le epsSq_pos (not_lt.mp h)

theorem detectVar_emit {t : ℚ} {a b : Int} {sid : String}
    {sorted : List Observation} {v : WeatherVar}
    (h : ¬ npVariance (sorted.map (fun o => getVar o v)) < epsSq) :
    detectVar t a b sid sorted v =
      (sorted.filter (fun o =>
          isAnomalous t (npMean (sorted.map (fun o => getVar o v)))
            (npVariance (sorted.map (fun o => getVar o v))) (getVar o v))).map
        (fun o =>
          { time_start := a
            time_end := b
            station_id := sid
            var_name := varStr v
            anomaly_timestamp := o.timestamp
            anomaly_value := round2q (getVar o v)
            z_score := round2r (zScore (getVar o v)
              (npMean (sorted.map (fun o => getVar o v)))
              (npVariance (sorted.map (fun o => getVar o v)))) }) := by
  simp only [detectVar]
  rw [if_neg h, if_pos (variance_pos_of_not_small h)]

/-! ## Extraction helpers for `flatMap` -/

theorem filterFlatMap {α β : Type} (l : List α) (f : α → List β) (p : β → Bool) :
    (l.flatMap f).filter p = l.flatMap (fun a => (f a).filter p) := by
  induction l with
  | nil => rfl
  | cons x xs ih => simp only [List.flatMap_cons, List.filter_append, ih]

theorem flatMapEqNil {α β : Type} {l : List α} {f : α → List β}
    (h : ∀ a ∈ l, f a = []) : l.flatMap f = [] := by
  induction l with
  | nil => rfl
  | cons x xs ih =>
    rw [List.flatMap_cons, h x (List.mem_cons_self _ _), List.nil_append]
    exact ih fun a ha => h a (List.mem_cons_of_mem _ ha)

theorem flatMapSingle {α β : Type} [DecidableEq α] {ks : List α} {A : α → List β}
    {s : α} (hnd : ks.Nodup) (hs : s ∈ ks)
    (hz : ∀ s' ∈ ks, s' ≠ s → A s' = []) :
    ks.flatMap A = A s := by
  induction ks with
  | nil => cases hs
  | cons k ks ih =>
    rcases List.mem_cons.mp hs with rfl | hs'
    · have hrest : ks.flatMap A = [] := by
        refine flatMapEqNil ?_
        intro a ha
        refine hz a (List.mem_cons_of_mem _ ha) ?_
        intro he
        exact (List.nodup_cons.mp hnd).1 (he ▸ ha)
      rw [List.flatMap_cons, hrest, List.append_nil]
    · have hk : k ≠ s := by
        intro he
        exact (List.nodup_cons.mp hnd).1 (he ▸ hs')
      rw [List.flatMap_cons, hz k (List.mem_cons_self _ _) hk, List.nil_append]
      exact ih (List.nodup_cons.mp hnd).2 hs'
        (fun a ha hne => hz a (List.mem_cons_of_mem _ ha) hne)

/-! ## Numerical facts about the Z-score -/

theorem sum_sq_nonneg (l : List ℚ) : 0 ≤ (l.map (fun x => x ^ 2)).sum := by
  apply List.sum_nonneg
  intro a ha
  rcases List.mem_map.mp ha with ⟨y, _, rfl⟩
  positivity

theorem npVariance_nonneg (l : List ℚ) : 0 ≤ npVariance l := by
  unfold npVariance
  apply div_nonneg
  · apply List.sum_nonneg
    intro a ha
    rcases List.mem_map.mp ha with ⟨y, _, rfl⟩
    positivity
  · positivity

theorem sqSumLeLengthMulSumSq (l : List ℚ) :
    l.sum ^ 2 ≤ (l.length : ℚ) * (l.map (fun x => x ^ 2)).sum := by
  induction l with
  | nil => simp
  | cons x xs ih =>
    rcases eq_or_ne xs [] with rfl | hne
    · simp
    · have hn : (1 : ℚ) ≤ (xs.length : ℚ) := by
        have := List.length_pos.mpr hne
        exact_mod_cast this
      have hq : 0 ≤ (xs.map (fun x => x ^ 2)).sum := sum_sq_nonneg xs
      simp only [List.sum_cons, List.map_cons, List.length_cons]
      push_cast
      nlinarith [ih, hq, hn, sq_nonneg ((xs.length : ℚ) * x - xs.sum),
        mul_le_mul_of_nonneg_left ih (le_trans zero_le_one hn)]

theorem sum_map_sub_const (l : List ℚ) (m : ℚ) :
    (l.map (fun x => x - m)).sum = l.sum - l.length * m := by
  induction l with
  | nil => simp
  | cons x xs ih =>
    simp only [List.map_cons, List.sum_cons, List.length_cons, ih]
    push_cast
    ring

theorem sum_dev_eq_zero {l : List ℚ} (h : l ≠ []) :
    (l.map (fun x => x - npMean l)).sum = 0 := by
  have hn : ((l.length : ℚ)) ≠ 0 := by
    have := List.length_pos.mpr h
    positivity
  rw [sum_map_sub_const, npMean]
  field_simp

theorem dev_sq_le {l : List ℚ} {x : ℚ} (hx : x ∈ l) :
    (x - npMean l) ^ 2 ≤ ((l.length : ℚ) - 1) * npVariance l := by
  have hne : l ≠ [] := List.ne_nil_of_mem hx
  have hlen1 : 1 ≤ l.length := List.length_pos.mpr hne
  have hn0 : (0 : ℚ) < (l.length : ℚ) := by exact_mod_cast hlen1
  have hperm : l.Perm (x :: l.erase x) := List.perm_cons_erase hx
  have hS : (l.map (fun y => (y - npMean l) ^ 2)).sum
      = (x - npMean l) ^ 2 + ((l.erase x).map (fun y => (y - npMean l) ^ 2)).sum := by
    rw [(hperm.map _).sum_eq, List.map_cons, List.sum_cons]
  have hT : ((l.erase x).map (fun y => y - npMean l)).sum = -(x - npMean l) := by
    have h0 : (l.map (fun y => y - npMean l)).sum = 0 := sum_dev_eq_zero hne
    rw [(hperm.map _).sum_eq, List.map_cons, List.sum_cons] at h0
    linarith
  have hlen : ((l.erase x).length : ℚ) = (l.length : ℚ) - 1 := by
    rw [List.length_erase_of_mem hx]
    exact Nat.cast_sub hlen1
  have hC := sqSumLeLengthMulSumSq ((l.erase x).map (fun y => y - npMean l))
  rw [List.map_map, List.length_map, hT, hlen] at hC
  have hcomp : ((fun x => x ^ 2) ∘ fun y => y - npMean l) =
      fun y => (y - npMean l) ^ 2 := rfl
  rw [hcomp, neg_sq] at hC
  have key : (l.length : ℚ) * (x - npMean l) ^ 2
      ≤ ((l.length : ℚ) - 1) * (l.map (fun y => (y - npMean l) ^ 2)).sum := by
    nlinarith [hC, hS]
  have hvar : npVariance l
      = (l.map (fun y => (y - npMean l) ^ 2)).sum / (l.length : ℚ) := rfl
  rw [hvar, ← mul_div_assoc, le_div_iff₀ hn0]
  linarith [key]

theorem isAnomalous_iff {t m v x : ℚ} (hv : 0 < v) :
    isAnomalous t m v x = true ↔ (t : ℝ) < |zScore x m v| := by
  have hv' : (0 : ℝ) < (v : ℝ) := by exact_mod_cast hv
  have hs : 0 < Real.sqrt (v : ℝ) := Real.sqrt_pos.mpr hv'
  unfold zScore isAnomalous
  rw [abs_div, abs_of_pos hs, Bool.or_eq_true, decide_eq_true_eq,
    decide_eq_true_eq]
  constructor
  · rintro (ht | ht)
    · have htr : (t : ℝ) < 0 := by exact_mod_cast ht
      exact lt_of_lt_of_le htr
        (div_nonneg (abs_nonneg _) (le_of_lt hs))
    · by_cases ht0 : t < 0
      · have htr : (t : ℝ) < 0 := by exact_mod_cast ht0
        exact lt_of_lt_of_le htr
          (div_nonneg (abs_nonneg _) (le_of_lt hs))
      · have ht0' : (0 : ℝ) ≤ (t : ℝ) := by
          exact_mod_cast not_lt.mp ht0
        have h2 : ((t : ℝ) * Real.sqrt (v : ℝ)) ^ 2
            < |(x : ℝ) - (m : ℝ)| ^ 2 := by
          rw [mul_pow, Real.sq_sqrt (le_of_lt hv'), sq_abs]
          exact_mod_cast ht
        have h3 : (t : ℝ) * Real.sqrt (v : ℝ) < |(x : ℝ) - (m : ℝ)| := by
          have hb : (0 : ℝ) ≤ (t : ℝ) * Real.sqrt (v : ℝ) :=
            mul_nonneg ht0' (le_of_lt hs)
          nlinarith [h2, hb, abs_nonneg ((x : ℝ) - (m : ℝ))]
        rw [lt_div_iff₀ hs]
        exact h3
  · intro h
    by_cases ht0 : t < 0
    · exact .inl ht0
    · refine .inr ?_
      have ht0' : (0 : ℝ) ≤ (t : ℝ) := by exact_mod_cast not_lt.mp ht0
      rw [lt_div_iff₀ hs] at h
      have hb : (0 : ℝ) ≤ (t : ℝ) * Real.sqrt (v : ℝ) :=
        mul_nonneg ht0' (le_of_lt hs)
      have h2 : ((t : ℝ) * Real.sqrt (v : ℝ)) ^ 2
          < |(x : ℝ) - (m : ℝ)| ^ 2 := by
        nlinarith [h, hb, abs_nonneg ((x : ℝ) - (m : ℝ))]
      rw [mul_pow, Real.sq_sqrt (le_of_lt hv'), sq_abs] at h2
      have h2' : (t : ℝ) ^ 2 * (v : ℝ) < ((x : ℝ) - (m : ℝ)) ^ 2 := h2
      exact_mod_cast h2'

theorem zScore_abs_le {l : List ℚ} {x : ℚ} (hx : x ∈ l) :
    |zScore x (npMean l) (npVariance l)| ≤ Real.sqrt ((l.length : ℝ) - 1) := by
  have hne : l ≠ [] := List.ne_nil_of_mem hx
  have hlen1 : 1 ≤ l.length := List.length_pos.mpr hne
  rcases eq_or_lt_of_le (npVariance_nonneg l) with hv | hv
  · rw [zScore, ← hv]
    push_cast
    rw [Real.sqrt_zero, div_zero, abs_zero]
    exact Real.sqrt_nonneg _
  · have hv' : (0 : ℝ) < (npVariance l : ℝ) := by exact_mod_cast hv
    have hs : 0 < Real.sqrt ((npVariance l : ℝ)) := Real.sqrt_pos.mpr hv'
    have hn1 : (0 : ℝ) ≤ (l.length : ℝ) - 1 := by
      have : (1 : ℝ) ≤ (l.length : ℝ) := by exact_mod_cast hlen1
      linarith
    rw [zScore, abs_div, abs_of_pos hs, div_le_iff₀ hs]
    rw [← Real.sqrt_mul hn1]
    refine (Real.le_sqrt (abs_nonneg _) ?_).mpr ?_
    · exact mul_nonneg hn1 (le_of_lt hv')
    · rw [sq_abs]
      have hb := dev_sq_le hx
      have hb' : (((x - npMean l) ^ 2 : ℚ) : ℝ)
          ≤ ((((l.length : ℚ) - 1) * npVariance l : ℚ) : ℝ) := by
        exact_mod_cast hb
      push_cast at hb'
      linarith [hb']

/-! ## Further helper lemmas -/

theorem headD_mem_of_ne_nil {α : Type} {l : List α} (h : l ≠ []) (d : α) :
    l.headD d ∈ l := by
  cases l with
  | nil => exact absurd rfl h
  | cons x xs => exact List.mem_cons_self _ _

theorem length_filter_mono {α : Type} {p q : α → Bool} (l : List α)
    (h : ∀ a, p a = true → q a = true) :
    (l.filter p).length ≤ (l.filter q).length := by
  induction l with
  | nil => exact le_refl _
  | cons x xs ih =>
    by_cases hx : p x = true
    · rw [List.filter_cons_of_pos hx, List.filter_cons_of_pos (h x hx)]
      simpa using ih
    · rw [List.filter_cons_of_neg (by simpa using hx)]
      by_cases hq : q x = true
      · rw [List.filter_cons_of_pos hq]
        exact le_trans ih (Nat.le_succ _)
      · rw [List.filter_cons_of_neg (by simpa using hq)]
        exact ih

theorem isAnomalous_mono {t₁ t₂ m x : ℚ} {v : ℚ} (h : t₁ ≤ t₂) (hv : 0 ≤ v)
    (ha : isAnomalous t₂ m v x = true) : isAnomalous t₁ m v x = true := by
  simp only [isAnomalous, Bool.or_eq_true, decide_eq_true_eq] at ha ⊢
  rcases ha with ht | ht
  · exact .inl (lt_of_le_of_lt h ht)
  · by_cases h1 : t₁ < 0
    · exact .inl h1
    · refine .inr (lt_of_le_of_lt ?_ ht)
      have h1' : 0 ≤ t₁ := not_lt.mp h1
      have hp : t₁ ^ 2 ≤ t₂ ^ 2 := by nlinarith
      exact mul_le_mul_of_nonneg_right hp hv

theorem detectVar_length_mono {t₁ t₂ : ℚ} {a b : Int} {sid : String}
    {sorted : List Observation} {v : WeatherVar} (h : t₁ ≤ t₂) :
    (detectVar t₂ a b sid sorted v).length ≤
      (detectVar t₁ a b sid sorted v).length := by
  by_cases h1 : npVariance (sorted.map (fun o => getVar o v)) < epsSq
  · rw [detectVar_skip h1, detectVar_skip h1]
  · rw [detectVar_emit h1, detectVar_emit h1, List.length_map, List.length_map]
    exact length_filter_mono _
      (fun o ho => isAnomalous_mono h (npVariance_nonneg _) ho)

theorem detectStation_length_mono {t₁ t₂ : ℚ} {sid : String}
    {grp : List Observation} (h : t₁ ≤ t₂) :
    (detectStation t₂ sid grp).length ≤ (detectStation t₁ sid grp).length := by
  simp only [detectStation]
  by_cases hlen : (sortObs grp).length < 3
  · rw [if_pos hlen, if_pos hlen]
  · rw [if_neg hlen, if_neg hlen, List.length_flatMap, List.length_flatMap]
    apply List.sum_le_sum
    intro v _
    exact detectVar_length_mono h

theorem detectVar_perm {t : ℚ} {a b : Int} {sid : String}
    {s₁ s₂ : List Observation} {v : WeatherVar} (h : s₁.Perm s₂) :
    (detectVar t a b sid s₁ v).Perm (detectVar t a b sid s₂ v) := by
  have hvals : (s₁.map (fun o => getVar o v)).Perm (s₂.map (fun o => getVar o v)) :=
    h.map _
  have hm : npMean (s₁.map (fun o => getVar o v))
      = npMean (s₂.map (fun o => getVar o v)) := npMean_perm hvals
  have hv : npVariance (s₁.map (fun o => getVar o v))
      = npVariance (s₂.map (fun o => getVar o v)) := npVariance_perm hvals
  by_cases h1 : npVariance (s₁.map (fun o => getVar o v)) < epsSq
  · rw [detectVar_skip h1, detectVar_skip (by rwa [← hv])]
  · have h2 : ¬ npVariance (s₂.map (fun o => getVar o v)) < epsSq := by
      rwa [hv] at h1
    rw [detectVar_emit h1, detectVar_emit h2, ← hm, ← hv]
    exact (h.filter _).map _

theorem detectStation_perm {t : ℚ} {sid : String} {g₁ g₂ : List Observation}
    (h : g₁.Perm g₂) :
    (detectStation t sid g₁).Perm (detectStation t sid g₂) := by
  have hsort : (sortObs g₁).Perm (sortObs g₂) :=
    (sortObs_perm g₁).trans (h.trans (sortObs_perm g₂).symm)
  have hts : ((sortObs g₁).map (fun o => o.timestamp)).Perm
      ((sortObs g₂).map (fun o => o.timestamp)) := hsort.map _
  have hmin := listMinI_perm hts
  have hmax := listMaxI_perm hts
  simp only [detectStation]
  by_cases hlen : (sortObs g₁).length < 3
  · rw [if_pos hlen, if_pos (by rw [← hsort.length_eq]; exact hlen)]
  · rw [if_neg hlen, if_neg (by rw [← hsort.length_eq]; exact hlen), hmin, hmax]
    exact List.Perm.flatMap_left _ (fun v _ => detectVar_perm hsort)

/-! ## The claims -/

/-- **C2.** For every input list of observations and every threshold, a
station whose group contains fewer than 3 observations contributes zero
`AnomalyResult`s to the output of `detect_temporal_anomalies`. -/
theorem small_station_contributes_nothing
    {observations : List Observation} {threshold : ℚ} {s : String}
    {g : List Observation}
    (hg : (s, g) ∈ groupByStation observations)
    (hsmall : g.length < 3) :
    (detect_temporal_anomalies observations threshold).filter
      (fun r => r.station_id = s) = [] := by
  rcases mem_groupByStation hg with ⟨hmem, hfil⟩
  rw [detect_eq_spec, detectSpecOrdered, filterFlatMap]
  apply flatMapEqNil
  intro s' hs'
  by_cases hss : s' = s
  · subst hss
    rw [← hfil, detectStation_small hsmall, List.filter_nil]
  · refine List.filter_eq_nil_iff.mpr ?_
    intro r hr hp
    have hsid := (mem_detectStation hr).1
    simp only [decide_eq_true_eq] at hp
    exact hss (hsid.symm.trans hp)

/-- **C3.** A variable whose population variance over a station group lies
below the squared `1e-6` guard produces zero anomalies for that station and
variable, whatever the threshold; and whenever the guard is passed, the
variance — hence the Z-score divisor `std = √variance` — is strictly
positive, so the `std > 0` branch is always taken and the division is never
performed with a near-zero divisor. -/
theorem constant_variable_skipped
    {observations : List Observation} {threshold : ℚ} {s : String}
    {g : List Observation} {v : WeatherVar}
    (hg : (s, g) ∈ groupByStation observations)
    (hconst : npVariance (g.map (fun o => getVar o v)) < epsSq) :
    (detect_temporal_anomalies observations threshold).filter
        (fun r => r.station_id = s ∧ r.var_name = varStr v) = [] ∧
      (∀ values : List ℚ, ¬ npVariance values < epsSq →
        0 < npVariance values) := by
  refine ⟨?_, fun values h => variance_pos_of_not_small h⟩
  rcases mem_groupByStation hg with ⟨hmem, hfil⟩
  have hconst' : npVariance ((sortObs g).map (fun o => getVar o v)) < epsSq := by
    rwa [npVariance_perm ((sortObs_perm g).map _)]
  rw [detect_eq_spec, detectSpecOrdered, filterFlatMap]
  apply flatMapEqNil
  intro s' hs'
  by_cases hss : s' = s
  · subst hss
    rw [← hfil]
    simp only [detectStation]
    split
    · exact List.filter_nil _
    · rw [filterFlatMap]
      apply flatMapEqNil
      intro v' hv'
      by_cases hvv : v' = v
      · subst hvv
        rw [detectVar_skip hconst', List.filter_nil]
      · refine List.filter_eq_nil_iff.mpr ?_
        intro r hr hp
        rcases mem_detectVar hr with ⟨_, _, _, hvar, _⟩
        simp only [decide_eq_true_eq] at hp
        exact hvv (varStr_inj (hvar.symm.trans hp.2))
  · refine List.filter_eq_nil_iff.mpr ?_
    intro r hr hp
    have hsid := (mem_detectStation hr).1
    simp only [decide_eq_true_eq] at hp
    exact hss (hsid.symm.trans hp.1)

/-- **C4.** Raising the threshold never increases the number of reported
anomalies. -/
theorem threshold_monotone
    (observations : List Observation) {t₁ t₂ : ℚ} (h : t₁ ≤ t₂) :
    (detect_temporal_anomalies observations t₂).length ≤
      (detect_temporal_anomalies observations t₁).length := by
  rw [detect_temporal_anomalies, detect_temporal_anomalies,
    List.length_flatMap, List.length_flatMap]
  apply List.sum_le_sum
  intro p _
  exact detectStation_length_mono h

/-- **C5.** Permuting the input observations permutes nothing observable:
the detector's output on the permuted list is a permutation (the same
multiset) of its output on the original list. -/
theorem detect_order_independent
    {obs₁ obs₂ : List Observation} (threshold : ℚ) (h : obs₁.Perm obs₂) :
    (detect_temporal_anomalies obs₁ threshold).Perm
      (detect_temporal_anomalies obs₂ threshold) := by
  rw [detect_eq_spec, detect_eq_spec, detectSpecOrdered, detectSpecOrdered]
  have hkeys : (stationOrder obs₁).Perm (stationOrder obs₂) := by
    refine (List.perm_ext_iff_of_nodup (stationOrder_nodup _)
      (stationOrder_nodup _)).mpr ?_
    intro s
    rw [mem_stationOrder, mem_stationOrder]
    constructor
    · rintro ⟨o, ho, rfl⟩
      exact ⟨o, h.mem_iff.mp ho, rfl⟩
    · rintro ⟨o, ho, rfl⟩
      exact ⟨o, h.mem_iff.mpr ho, rfl⟩
  refine List.Perm.trans ?_ (hkeys.flatMap_right _)
  exact List.Perm.flatMap_left _
    (fun s _ => detectStation_perm (h.filter _))

/-- **C6.** The anomaly list of the `/detect` endpoint does not depend on the
`window_len` and `stride` parameters: any two requests sharing observations
and threshold produce the same anomaly list, whatever their window/stride
pairs. -/
theorem anomalies_independent_of_window_stride
    (observations : List Observation) (threshold : ℚ) (w₁ s₁ w₂ s₂ : Int) :
    anomaliesOf (detect_anomalies
        { observations := observations, window_len := w₁, stride := s₁,
          threshold := threshold }) =
      anomaliesOf (detect_anomalies
        { observations := observations, window_len := w₂, stride := s₂,
          threshold := threshold }) := by
  by_cases h1 : observations = []
  · simp [detect_anomalies, detect_anomalies_with, h1, anomaliesOf]
  · by_cases h2 : observations.length < 3
    · simp [detect_anomalies, detect_anomalies_with, h1, h2, anomaliesOf]
    · simp [detect_anomalies, detect_anomalies_with, h1, h2, anomaliesOf,
        runDetector]

/-- **C8.** The endpoint answers HTTP 400 on an empty or undersized
observation list without consulting the detector at all (the outcome is the
same for every `run`), and an exception inside the guarded detection
(`run` returning an error) is caught and surfaced as HTTP 500 carrying the
underlying message. -/
theorem endpoint_validation_and_error_handling :
    (∀ (run : List Observation → ℚ → Except String (List AnomalyResult))
        (req : DetectionRequest), req.observations = [] →
        detect_anomalies_with run req =
          .httpError 400 "No observations provided") ∧
      (∀ (run : List Observation → ℚ → Except String (List AnomalyResult))
          (req : DetectionRequest), req.observations ≠ [] →
          req.observations.length < 3 →
          detect_anomalies_with run req =
            .httpError 400 (insufficientMsg req.observations.length)) ∧
      (∀ (run : List Observation → ℚ → Except String (List AnomalyResult))
          (req : DetectionRequest) (e : String),
          run req.observations req.threshold = .error e →
          3 ≤ req.observations.length →
          detect_anomalies_with run req =
            .httpError 500 ("Detection failed: " ++ e)) := by
  refine ⟨?_, ?_, ?_⟩
  · intro run req h
    simp [detect_anomalies_with, h]
  · intro run req h1 h2
    simp [detect_anomalies_with, h1, h2]
  · intro run req e he h3
    have h1 : ¬ req.observations = [] := by
      intro h
      rw [h] at h3
      simp at h3
    have h2 : ¬ req.observations.length < 3 := not_lt.mpr h3
    simp [detect_anomalies_with, h1, h2, he]

/-- **C7.** The output order: the detector equals the spec-side description
`detectSpecOrdered` — station groups in first-seen order, each group's
records produced by the variable scan in its fixed order over the
timestamp-sorted batch, concatenated with no final re-sort — the per-group
sort is timestamp-ascending, and it is stable: observations with a common
timestamp keep their original relative order. -/
theorem output_ordering :
    (∀ (observations : List Observation) (threshold : ℚ),
        detect_temporal_anomalies observations threshold =
          detectSpecOrdered observations threshold) ∧
      (∀ l : List Observation, List.Sorted obsLE (sortObs l)) ∧
      (∀ (l : List Observation) (c : Int),
        (sortObs l).filter (fun o => o.timestamp = c) =
          l.filter (fun o => o.timestamp = c)) :=
  ⟨detect_eq_spec, sortObs_sorted, sortObs_filter_timestamp⟩

/-- **C9.** Every record the detector emits has its anomaly timestamp inside
its own `[time_start, time_end]` span, and that span is precisely the
minimum/maximum timestamp of the record's station group. -/
theorem anomaly_timestamp_within_span
    {observations : List Observation} {threshold : ℚ} {r : AnomalyResult}
    (hr : r ∈ detect_temporal_anomalies observations threshold) :
    (r.time_start ≤ r.anomaly_timestamp ∧
        r.anomaly_timestamp ≤ r.time_end) ∧
      ∃ s g, (s, g) ∈ groupByStation observations ∧ r.station_id = s ∧
        r.time_start = listMinI ((sortObs g).map (fun o => o.timestamp)) ∧
        r.time_end = listMaxI ((sortObs g).map (fun o => o.timestamp)) := by
  rw [detect_temporal_anomalies] at hr
  rcases List.mem_flatMap.mp hr with ⟨p, hpmem, hp⟩
  rcases mem_detectStation hp with ⟨hsid, hstart, hend, o, ho, hts⟩
  have hmem : o.timestamp ∈ (sortObs p.2).map (fun o => o.timestamp) :=
    List.mem_map_of_mem _ ho
  refine ⟨⟨?_, ?_⟩, p.1, p.2, hpmem, hsid, hstart, hend⟩
  · rw [hstart, hts]
    exact listMinI_le_of_mem hmem
  · rw [hend, hts]
    exact le_listMaxI_of_mem hmem

/-- **C1.** For every station group of at least 3 observations and every
tracked variable passing the `std ≥ 1e-6` guard (encoded on variances:
`epsSq ≤ variance`), the detector's records for that station and variable
are exactly one record per observation of the timestamp-sorted group whose
Z-score exceeds the threshold in absolute value — carrying the group's
min/max timestamps as `time_start`/`time_end`, the station id, the variable
name, the observation's own timestamp, the raw value rounded to 2 decimals
and the Z-score rounded to 2 decimals — and no record for an observation
with `|z| ≤ threshold`; the second conjunct identifies the encoded emission
test with the real `|z| > threshold` comparison. -/
theorem detect_group_variable_records
    {observations : List Observation} {threshold : ℚ} {s : String}
    {g : List Observation} {v : WeatherVar}
    (hg : (s, g) ∈ groupByStation observations)
    (h3 : 3 ≤ g.length)
    (hstd : epsSq ≤ npVariance (g.map (fun o => getVar o v))) :
    ((detect_temporal_anomalies observations threshold).filter
        (fun r => r.station_id = s ∧ r.var_name = varStr v) =
      ((sortObs g).filter (fun o =>
          isAnomalous threshold (npMean ((sortObs g).map (fun o => getVar o v)))
            (npVariance ((sortObs g).map (fun o => getVar o v)))
            (getVar o v))).map
        (fun o =>
          { time_start := listMinI ((sortObs g).map (fun o => o.timestamp))
            time_end := listMaxI ((sortObs g).map (fun o => o.timestamp))
            station_id := s
            var_name := varStr v
            anomaly_timestamp := o.timestamp
            anomaly_value := round2q (getVar o v)
            z_score := round2r (zScore (getVar o v)
              (npMean ((sortObs g).map (fun o => getVar o v)))
              (npVariance ((sortObs g).map (fun o => getVar o v)))) })) ∧
      ∀ x m vr : ℚ, 0 < vr →
        (isAnomalous threshold m vr x = true ↔
          (threshold : ℝ) < |zScore x m vr|) := by
  refine ⟨?_, fun x m vr hvr => isAnomalous_iff hvr⟩
  rcases mem_groupByStation hg with ⟨hmem, hfil⟩
  have hstd' : epsSq ≤ npVariance ((sortObs g).map (fun o => getVar o v)) := by
    rwa [npVariance_perm ((sortObs_perm g).map _)]
  have hnotlt : ¬ npVariance ((sortObs g).map (fun o => getVar o v)) < epsSq :=
    not_lt.mpr hstd'
  have hz : ∀ s' ∈ stationOrder observations, s' ≠ s →
      (detectStation threshold s'
          (observations.filter (fun o => o.station_id = s'))).filter
        (fun r => r.station_id = s ∧ r.var_name = varStr v) = [] := by
    intro s' _ hne
    refine List.filter_eq_nil_iff.mpr ?_
    intro r hr hp
    have hsid := (mem_detectStation hr).1
    simp only [decide_eq_true_eq] at hp
    exact hne (hsid.symm.trans hp.1)
  rw [detect_eq_spec, detectSpecOrdered, filterFlatMap,
    flatMapSingle (stationOrder_nodup _) hmem hz, ← hfil]
  simp only [detectStation]
  rw [if_neg (by rw [sortObs_length]; omega)]
  have hvz : ∀ v' ∈ variablesList, v' ≠ v →
      (detectVar threshold
          (listMinI ((sortObs g).map (fun o => o.timestamp)))
          (listMaxI ((sortObs g).map (fun o => o.timestamp))) s
          (sortObs g) v').filter
        (fun r => r.station_id = s ∧ r.var_name = varStr v) = [] := by
    intro v' _ hne
    refine List.filter_eq_nil_iff.mpr ?_
    intro r hr hp
    rcases mem_detectVar hr with ⟨_, _, _, hvar, _⟩
    simp only [decide_eq_true_eq] at hp
    exact hne (varStr_inj (hvar.symm.trans hp.2))
  rw [filterFlatMap, flatMapSingle variablesList_nodup (mem_variablesList v) hvz,
    detectVar_emit hnotlt, List.filter_map]
  congr 1
  apply List.filter_eq_self.mpr
  intro o _
  simp [Function.comp]

theorem detectStation_silent {t : ℚ} {sid : String} {g : List Observation}
    (h : Real.sqrt ((g.length : ℝ) - 1) ≤ (t : ℝ)) :
    detectStation t sid g = [] := by
  simp only [detectStation]
  split
  · rfl
  · apply flatMapEqNil
    intro v _
    by_cases h1 : npVariance ((sortObs g).map (fun o => getVar o v)) < epsSq
    · exact detectVar_skip h1
    · rw [detectVar_emit h1]
      rw [List.map_eq_nil_iff]
      refine List.filter_eq_nil_iff.mpr ?_
      intro o ho hano
      have hvpos : 0 < npVariance ((sortObs g).map (fun o => getVar o v)) :=
        variance_pos_of_not_small h1
      have hz := (isAnomalous_iff hvpos).mp hano
      have hxmem : getVar o v ∈ (sortObs g).map (fun o => getVar o v) :=
        List.mem_map_of_mem _ ho
      have hb := zScore_abs_le hxmem
      have hlen : ((((sortObs g).map (fun o => getVar o v)).length : ℝ) - 1)
          = ((g.length : ℝ) - 1) := by
        rw [List.length_map, sortObs_length]
      rw [hlen] at hb
      exact absurd hz (not_lt.mpr (le_trans hb h))

/-- **C10.** Population Z-scores over a batch of `n` values are bounded by
`√(n − 1)` in absolute value; consequently a station group is silent for any
threshold at least `√(n − 1)`, and in particular at the default threshold
`2.5` a station group of at most 7 observations can never report an
anomaly. -/
theorem zscore_bound_and_group_silence :
    (∀ (l : List ℚ) (x : ℚ), x ∈ l →
        |zScore x (npMean l) (npVariance l)| ≤
          Real.sqrt ((l.length : ℝ) - 1)) ∧
      (∀ (observations : List Observation) (threshold : ℚ) (s : String)
          (g : List Observation), (s, g) ∈ groupByStation observations →
          Real.sqrt ((g.length : ℝ) - 1) ≤ (threshold : ℝ) →
          (detect_temporal_anomalies observations threshold).filter
            (fun r => r.station_id = s) = []) ∧
      (∀ (observations : List Observation) (s : String)
          (g : List Observation), (s, g) ∈ groupByStation observations →
          g.length ≤ 7 →
          (detect_temporal_anomalies observations (5 / 2)).filter
            (fun r => r.station_id = s) = []) := by
  have part2 : ∀ (observations : List Observation) (threshold : ℚ) (s : String)
      (g : List Observation), (s, g) ∈ groupByStation observations →
      Real.sqrt ((g.length : ℝ) - 1) ≤ (threshold : ℝ) →
      (detect_temporal_anomalies observations threshold).filter
        (fun r => r.station_id = s) = [] := by
    intro observations threshold s g hg hth
    rcases mem_groupByStation hg with ⟨hmem, hfil⟩
    rw [detect_eq_spec, detectSpecOrdered, filterFlatMap]
    apply flatMapEqNil
    intro s' hs'
    by_cases hss : s' = s
    · subst hss
      rw [← hfil, detectStation_silent hth, List.filter_nil]
    · refine List.filter_eq_nil_iff.mpr ?_
      intro r hr hp
      have hsid := (mem_detectStation hr).1
      simp only [decide_eq_true_eq] at hp
      exact hss (hsid.symm.trans hp)
  refine ⟨fun l x hx => zScore_abs_le hx, part2, ?_⟩
  intro observations s g hg h7
  apply part2 observations (5 / 2) s g hg
  have hlen : ((g.length : ℝ) - 1) ≤ 6 := by
    have : (g.length : ℝ) ≤ 7 := by exact_mod_cast h7
    linarith
  have hcast : ((5 / 2 : ℚ) : ℝ) = 5 / 2 := by norm_num
  rw [hcast]
  refine Real.sqrt_le_iff.mpr ?_
  constructor
  · norm_num
  · nlinarith [hlen]

/-! ## Concrete instantiations of the hypotheses of the claims -/

theorem detect_group_variable_records_witness :
    (detect_temporal_anomalies sampleA (1 / 2)).filter
        (fun r => r.station_id = "A" ∧ r.var_name = varStr .temp_out) =
      ((sortObs sampleA).filter (fun o =>
          isAnomalous (1 / 2)
            (npMean ((sortObs sampleA).map (fun o => getVar o .temp_out)))
            (npVariance ((sortObs sampleA).map (fun o => getVar o .temp_out)))
            (getVar o .temp_out))).map
        (fun o =>
          { time_start := listMinI ((sortObs sampleA).map (fun o => o.timestamp))
            time_end := listMaxI ((sortObs sampleA).map (fun o => o.timestamp))
            station_id := "A"
            var_name := varStr .temp_out
            anomaly_timestamp := o.timestamp
            anomaly_value := round2q (getVar o .temp_out)
            z_score := round2r (zScore (getVar o .temp_out)
              (npMean ((sortObs sampleA).map (fun o => getVar o .temp_out)))
              (npVariance ((sortObs sampleA).map (fun o => getVar o .temp_out)))) }) :=
  (@detect_group_variable_records sampleA (1 / 2) "A" sampleA .temp_out
    (by simp [groupByStation, sampleA, insertObs, obsA])
    (by norm_num [sampleA])
    (by norm_num [sampleA, obsA, getVar, npVariance, npMean, epsSq])).1

theorem small_station_contributes_nothing_witness :
    (detect_temporal_anomalies sampleB (5 / 2)).filter
      (fun r => r.station_id = "B") = [] :=
  @small_station_contributes_nothing sampleB (5 / 2) "B" sampleB
    (by simp [groupByStation, sampleB, insertObs, obsB])
    (by norm_num [sampleB])

theorem constant_variable_skipped_witness :
    (detect_temporal_anomalies sampleA (5 / 2)).filter
        (fun r => r.station_id = "A" ∧ r.var_name = varStr .out_hum) = [] ∧
      (∀ values : List ℚ, ¬ npVariance values < epsSq →
        0 < npVariance values) :=
  @constant_variable_skipped sampleA (5 / 2) "A" sampleA .out_hum
    (by simp [groupByStation, sampleA, insertObs, obsA])
    (by norm_num [sampleA, obsA, getVar, npVariance, npMean, epsSq])

theorem threshold_monotone_witness :
    (detect_temporal_anomalies sampleA 2).length ≤
      (detect_temporal_anomalies sampleA 1).length :=
  threshold_monotone sampleA (by norm_num)

theorem detect_order_independent_witness :
    (detect_temporal_anomalies sampleA (5 / 2)).Perm
      (detect_temporal_anomalies sampleASwapped (5 / 2)) :=
  detect_order_independent (5 / 2) (by
    show (obsA 1 1 :: obsA 2 (-1) :: [obsA 3 1, obsA 4 (-1)]).Perm
      (obsA 2 (-1) :: obsA 1 1 :: [obsA 3 1, obsA 4 (-1)])
    exact List.Perm.swap _ _ _)

theorem endpoint_validation_and_error_handling_witness :
    detect_anomalies_with (fun _ _ => .ok []) { observations := [] } =
        .httpError 400 "No observations provided" ∧
      detect_anomalies_with (fun _ _ => .ok []) { observations := sampleB } =
        .httpError 400 (insufficientMsg 2) ∧
      detect_anomalies_with (fun _ _ => .error "boom")
          { observations := sampleC } =
        .httpError 500 ("Detection failed: " ++ "boom") :=
  ⟨endpoint_validation_and_error_handling.1 _ _ rfl,
    endpoint_validation_and_error_handling.2.1 _ _
      (by simp [sampleB]) (by norm_num [sampleB]),
    endpoint_validation_and_error_handling.2.2 _ _ "boom" rfl
      (by norm_num [sampleC])⟩

theorem anomaly_timestamp_within_span_witness :
    ((detect_temporal_anomalies sampleC 1).headD dummyRec).time_start ≤
        ((detect_temporal_anomalies sampleC 1).headD dummyRec).anomaly_timestamp ∧
      ((detect_temporal_anomalies sampleC 1).headD dummyRec).anomaly_timestamp ≤
        ((detect_temporal_anomalies sampleC 1).headD dummyRec).time_end := by
  have hne : detect_temporal_anomalies sampleC 1 ≠ [] := by
    norm_num [detect_temporal_anomalies, groupByStation, insertObs, sampleC,
      obsA, detectStation, sortObs, List.insertionSort, List.orderedInsert,
      obsLE, listMinI, listMaxI, variablesList, detectVar, getVar,
      npVariance, npMean, epsSq, isAnomalous]
  exact (anomaly_timestamp_within_span
    (headD_mem_of_ne_nil hne dummyRec)).1

theorem zscore_bound_and_group_silence_witness :
    (|zScore 2 (npMean [2, 0, 1]) (npVariance [2, 0, 1])| ≤
        Real.sqrt ((([2, 0, 1] : List ℚ).length : ℝ) - 1)) ∧
      ((detect_temporal_anomalies sampleB 2).filter
          (fun r => r.station_id = "B") = []) ∧
      ((detect_temporal_anomalies sampleB (5 / 2)).filter
          (fun r => r.station_id = "B") = []) :=
  ⟨zscore_bound_and_group_silence.1 [2, 0, 1] 2 (List.mem_cons_self _ _),
    zscore_bound_and_group_silence.2.1 sampleB 2 "B" sampleB
      (by simp [groupByStation, sampleB, insertObs, obsB])
      (by norm_num [sampleB, Real.sqrt_one]),
    zscore_bound_and_group_silence.2.2 sampleB "B" sampleB
      (by simp [groupByStation, sampleB, insertObs, obsB])
      (by norm_num [sampleB])⟩
